import Mathlib

/-!
Verification of the MiSTer ROM catalog / preview subsystem
(src/rom_catalog.h, the rom_catalog.cpp implementation embedded in
src/rom_preview.h, and src/rom_preview.cpp).

The C code is shallowly embedded: C strings (char arrays) become `List Char`,
the growable entry store becomes a `List RomEntry`, the fixed 32-slot station
registry becomes a `List RomStation` of length `ROM_MAX_STATIONS`, and the
external collaborators (filesystem, network, image decoder) become explicit
environment records of functions.  Machine integers in the source are small
non-negative counters and ids, modelled as `Nat` (with `Int` where the C uses
a signed int, e.g. the -1 "all stations" browse filter and -1 error returns).
-/

namespace RomCatalog

/-! ## Character and C-string primitives -/

/-- ASCII `tolower`, as used by the C code on single bytes. -/
def cToLower (c : Char) : Char :=
  if 'A' ≤ c ∧ c ≤ 'Z' then Char.ofNat (c.toNat + 32) else c

/-- Case-insensitive prefix test: `needle` is a prefix of `hay` up to
`tolower`.  Building block for the embedding of `strcasestr`. -/
def isPrefixCI : List Char → List Char → Bool
  | [], _ => true
  | _ :: _, [] => false
  | a :: as, b :: bs => (cToLower a = cToLower b : Bool) && isPrefixCI as bs

/-- Embedding of `strcasestr(hay, needle) != NULL`: `needle` occurs in `hay`
as a case-insensitive substring. -/
def containsCI (needle : List Char) : List Char → Bool
  | [] => needle.isEmpty
  | c :: t => isPrefixCI needle (c :: t) || containsCI needle t

/-- The specification-level notion of case-insensitive substring: some
contiguous slice of `hay` lowercases to the lowercase of `needle`. -/
def CISubstr (needle hay : List Char) : Prop :=
  ∃ pre mid post, hay = pre ++ mid ++ post ∧ mid.map cToLower = needle.map cToLower

theorem isPrefixCI_iff (needle : List Char) : ∀ hay : List Char,
    isPrefixCI needle hay = true ↔
      ∃ mid post, hay = mid ++ post ∧ mid.map cToLower = needle.map cToLower := by
  induction needle with
  | nil =>
    intro hay
    constructor
    · intro _; exact ⟨[], hay, rfl, rfl⟩
    · intro _; rfl
  | cons c n ih =>
    intro hay
    cases hay with
    | nil =>
      simp only [isPrefixCI]
      constructor
      · intro h; cases h
      · rintro ⟨mid, post, h1, h2⟩
        rcases List.append_eq_nil.mp h1.symm with ⟨hm, _⟩
        subst hm; simp at h2
    | cons d t =>
      simp only [isPrefixCI, Bool.and_eq_true, decide_eq_true_eq]
      constructor
      · rintro ⟨hcd, hpre⟩
        rcases (ih t).mp hpre with ⟨mid, post, h1, h2⟩
        exact ⟨d :: mid, post, by simp [h1], by simp [h2, hcd]⟩
      · rintro ⟨mid, post, h1, h2⟩
        cases mid with
        | nil => simp at h2
        | cons m ms =>
          simp only [List.cons_append] at h1
          obtain ⟨hd, ht⟩ := List.cons.injEq .. ▸ h1
          simp only [List.map_cons, List.cons.injEq] at h2
          subst hd
          exact ⟨h2.1.symm, (ih t).mpr ⟨ms, post, ht, h2.2⟩⟩

theorem containsCI_iff (needle : List Char) : ∀ hay : List Char,
    containsCI needle hay = true ↔ CISubstr needle hay := by
  intro hay
  induction hay with
  | nil =>
    simp only [containsCI, CISubstr, List.isEmpty_iff]
    constructor
    · intro h; subst h; exact ⟨[], [], [], rfl, rfl⟩
    · rintro ⟨pre, mid, post, h1, h2⟩
      rcases List.append_eq_nil.mp (List.append_eq_nil.mp h1.symm).1 with ⟨_, hm⟩
      subst hm; simpa using h2.symm
  | cons c t ih =>
    simp only [containsCI, Bool.or_eq_true]
    constructor
    · rintro (h | h)
      · rcases (isPrefixCI_iff needle (c :: t)).mp h with ⟨mid, post, h1, h2⟩
        exact ⟨[], mid, post, by simpa using h1, h2⟩
      · rcases ih.mp h with ⟨pre, mid, post, h1, h2⟩
        exact ⟨c :: pre, mid, post, by simp [h1], h2⟩
    · rintro ⟨pre, mid, post, h1, h2⟩
      cases pre with
      | nil =>
        exact Or.inl ((isPrefixCI_iff needle (c :: t)).mpr ⟨mid, post, by simpa using h1, h2⟩)
      | cons p ps =>
        simp only [List.cons_append, List.cons.injEq] at h1
        exact Or.inr (ih.mpr ⟨ps, mid, post, h1.2, h2⟩)

theorem isPrefixCI_of_append {t ext hay : List Char}
    (h : isPrefixCI (t ++ ext) hay = true) : isPrefixCI t hay = true := by
  induction t generalizing hay with
  | nil => rfl
  | cons c cs ih =>
    cases hay with
    | nil => exact absurd h (by simp [isPrefixCI])
    | cons d ds =>
      simp only [List.cons_append, isPrefixCI, Bool.and_eq_true] at h ⊢
      exact ⟨h.1, ih h.2⟩

theorem containsCI_of_append {t ext hay : List Char}
    (h : containsCI (t ++ ext) hay = true) : containsCI t hay = true := by
  induction hay with
  | nil =>
    simp only [containsCI, List.isEmpty_iff, List.append_eq_nil] at h ⊢
    exact h.1
  | cons c cs ih =>
    simp only [containsCI, Bool.or_eq_true] at h ⊢
    rcases h with h | h
    · exact Or.inl (isPrefixCI_of_append h)
    · exact Or.inr (ih h)

/-! ## Data model (rom_catalog.h) -/

/-- ROM_MAX_STATIONS in rom_catalog.h. -/
def ROM_MAX_STATIONS : Nat := 32

/-- rom_entry_t.  The fixed-size char buffers become lists of characters; the
buffer-size truncations applied by strncpy/snprintf when an entry is built are
applied at construction time (see add_rom_entry below). -/
structure RomEntry where
  name : List Char
  filename : List Char
  path : List Char
  station_id : Nat
  size : Nat
  date : Nat
  has_preview : Bool
  preview_path : List Char
deriving DecidableEq

/-- rom_station_t. -/
structure RomStation where
  id : Nat
  name : List Char
  short_name : List Char
  rom_path : List Char
  core_path : List Char
  extensions : List Char
  enabled : Bool
  rom_count : Nat
deriving DecidableEq

/-- rom_catalog_t.  `stations` is the fixed 32-slot array (length
`ROM_MAX_STATIONS` in well-formed states), `roms` the dynamically grown entry
store (`rom_count` is its length; `rom_capacity` and the realloc-doubling are
memory management with no observable effect on the stored sequence, and the
embedding assumes allocation succeeds).  The scan_status message string is
presentation-only and omitted. -/
structure Catalog where
  stations : List RomStation
  station_count : Nat
  roms : List RomEntry
  scan_progress : Nat
deriving DecidableEq

/-! ## Browse view: rebuild_filtered_list (rom_catalog.cpp lines 499-529) -/

/-- The filter applied to one entry by the loop body of
`rebuild_filtered_list`: entries are skipped when a non-negative station
filter differs from the entry's station, or when a non-empty search text does
not occur case-insensitively (strcasestr) in the entry's display name. -/
def rom_passes_filter (stationFilter : Int) (searchText : List Char) (rom : RomEntry) : Bool :=
  if 0 ≤ stationFilter ∧ (rom.station_id : Int) ≠ stationFilter then false
  else if searchText ≠ [] ∧ containsCI searchText rom.name = false then false
  else true

/-- `rebuild_filtered_list`: walk the entry store in order and keep the
entries passing the station and search-text filters. -/
def rebuild_filtered_list (roms : List RomEntry) (stationFilter : Int)
    (searchText : List Char) : List RomEntry :=
  roms.filter (rom_passes_filter stationFilter searchText)

theorem rom_passes_filter_iff (sf : Int) (txt : List Char) (rom : RomEntry) :
    rom_passes_filter sf txt rom = true ↔
      (sf < 0 ∨ (rom.station_id : Int) = sf) ∧ (txt = [] ∨ CISubstr txt rom.name) := by
  unfold rom_passes_filter
  by_cases h1 : 0 ≤ sf ∧ (rom.station_id : Int) ≠ sf
  · rw [if_pos h1]
    constructor
    · intro h; exact absurd h (by simp)
    · rintro ⟨hst, _⟩
      rcases hst with hlt | heq
      · exact absurd h1.1 (by omega)
      · exact absurd heq h1.2
  · rw [if_neg h1]
    by_cases h2 : txt ≠ [] ∧ containsCI txt rom.name = false
    · rw [if_pos h2]
      constructor
      · intro h; exact absurd h (by simp)
      · rintro ⟨_, htxt⟩
        rcases htxt with rfl | hsub
        · exact absurd rfl h2.1
        · rw [← containsCI_iff] at hsub
          rw [h2.2] at hsub; cases hsub
    · rw [if_neg h2]
      push_neg at h1 h2
      constructor
      · intro _
        refine ⟨?_, ?_⟩
        · by_cases hs : 0 ≤ sf
          · exact Or.inr (h1 hs)
          · exact Or.inl (by omega)
        · by_cases ht : txt = []
          · exact Or.inl ht
          · refine Or.inr ((containsCI_iff txt rom.name).mp ?_)
            have hcc := h2 ht
            revert hcc
            cases containsCI txt rom.name <;> simp
      · intro _; rfl

/-- The filter predicate is antitone in appending to the search text: a match
of the extended text is a match of the original text. -/
theorem rom_passes_filter_append {sf : Int} {t ext : List Char} {rom : RomEntry}
    (h : rom_passes_filter sf (t ++ ext) rom = true) :
    rom_passes_filter sf t rom = true := by
  rw [rom_passes_filter_iff] at h ⊢
  refine ⟨h.1, ?_⟩
  rcases h.2 with hnil | hsub
  · rcases List.append_eq_nil.mp hnil with ⟨rfl, _⟩
    exact Or.inl rfl
  · rw [← containsCI_iff] at hsub
    exact Or.inr ((containsCI_iff t rom.name).mp (containsCI_of_append hsub))

/-- Counting helper: a pointwise implication between Boolean predicates gives
an inequality between the lengths of the corresponding filters. -/
theorem length_filter_mono {α : Type} {p q : α → Bool}
    (himp : ∀ a, p a = true → q a = true) :
    ∀ l : List α, (l.filter p).length ≤ (l.filter q).length := by
  intro l
  induction l with
  | nil => exact Nat.le_refl 0
  | cons a l ih =>
    by_cases hp : p a = true
    · rw [List.filter_cons_of_pos hp, List.filter_cons_of_pos (himp a hp)]
      simpa using ih
    · rw [List.filter_cons_of_neg (by simpa using hp)]
      rcases hq : q a with _ | _
      · rw [List.filter_cons_of_neg (by simp [hq])]
        exact ih
      · rw [List.filter_cons_of_pos hq]
        exact Nat.le_trans ih (by simp)

/-! ## Sort (rom_catalog.cpp lines 719-758) and filter entry points -/

/-- rom_sort_mode_t. -/
inductive RomSortMode where
  | nameAsc | nameDesc | stationAsc | stationDesc
  | dateAsc | dateDesc | sizeAsc | sizeDesc
deriving DecidableEq

/-- C `strcasecmp`: sign of the first differing byte pair after `tolower`
(the magnitude returned by libc is unspecified beyond its sign; the embedding
returns the difference at the first mismatch, 0 on equal strings, and the
sign of the terminating-NUL comparison when one string is a proper prefix of
the other). -/
def strcasecmp : List Char → List Char → Int
  | [], [] => 0
  | [], c :: _ => -(cToLower c).toNat
  | c :: _, [] => (cToLower c).toNat
  | a :: as, b :: bs =>
    if cToLower a = cToLower b then strcasecmp as bs
    else (cToLower a).toNat - (cToLower b).toNat

/-- compare_roms, the qsort comparator.  The C date/size branches subtract
uint32 values, whose wrap-around for differences at least 2^31 is a known
comparator caveat; since none of the verified claims depend on the comparator
order, the embedding uses exact integer subtraction. -/
def compare_roms (mode : RomSortMode) (ra rb : RomEntry) : Int :=
  match mode with
  | RomSortMode.nameAsc => strcasecmp ra.name rb.name
  | RomSortMode.nameDesc => strcasecmp rb.name ra.name
  | RomSortMode.stationAsc =>
    if ra.station_id ≠ rb.station_id then (ra.station_id : Int) - rb.station_id
    else strcasecmp ra.name rb.name
  | RomSortMode.stationDesc =>
    if ra.station_id ≠ rb.station_id then (rb.station_id : Int) - ra.station_id
    else strcasecmp ra.name rb.name
  | RomSortMode.dateAsc => (ra.date : Int) - rb.date
  | RomSortMode.dateDesc => (rb.date : Int) - ra.date
  | RomSortMode.sizeAsc => (ra.size : Int) - rb.size
  | RomSortMode.sizeDesc => (rb.size : Int) - ra.size

/-- Insertion step for the comparator-based sort. -/
def sortInsert (le : RomEntry → RomEntry → Bool) (x : RomEntry) : List RomEntry → List RomEntry
  | [] => [x]
  | y :: ys => if le x y then x :: y :: ys else y :: sortInsert le x ys

/-- Comparator-based sort standing in for `qsort` (qsort's order among
comparator-equal elements is unspecified; any total sort by the comparator is
a faithful model, and the claims verified here do not depend on the tie
order). -/
def sortByComparator (le : RomEntry → RomEntry → Bool) : List RomEntry → List RomEntry
  | [] => []
  | x :: xs => sortInsert le x (sortByComparator le xs)

/-- The browse-view module state: the statics of rom_catalog.cpp
(iSelectedEntry, iFirstEntry, browse_station_filter, filtered_roms,
search_filter, current_sort_mode) together with the entry store they project.
`filtered` stores the entries themselves where the C stores pointers into the
store. -/
structure BrowseState where
  roms : List RomEntry
  stationFilter : Int
  searchFilter : List Char
  filtered : List RomEntry
  iFirstEntry : Nat
  iSelectedEntry : Nat
  sortMode : RomSortMode
deriving DecidableEq

/-- Re-derive the filtered list from the store and the current filters
(the call `rebuild_filtered_list()` on the module state). -/
def rebuildState (st : BrowseState) : BrowseState :=
  { st with filtered := rebuild_filtered_list st.roms st.stationFilter st.searchFilter }

/-- rom_sort (rom_catalog.cpp lines 752-758): record the mode and qsort the
current filtered view in place.  The store and the filters are untouched. -/
def rom_sort (mode : RomSortMode) (st : BrowseState) : BrowseState :=
  { st with sortMode := mode,
            filtered := sortByComparator (fun a b => compare_roms mode a b ≤ 0) st.filtered }

/-- rom_filter_set (rom_catalog.cpp lines 764-771): strncpy the search text
(capped at the 255 characters that fit the buffer), rebuild, then reset both
cursor indices to 0. -/
def rom_filter_set (st : BrowseState) (text : List Char) : BrowseState :=
  let st1 := rebuildState { st with searchFilter := text.take 255 }
  { st1 with iFirstEntry := 0, iSelectedEntry := 0 }

/-- rom_filter_clear (rom_catalog.cpp lines 773-777): empty the search text
and rebuild.  The cursor indices are left as they were. -/
def rom_filter_clear (st : BrowseState) : BrowseState :=
  rebuildState { st with searchFilter := [] }

/-! ## Station registry (rom_catalog.cpp lines 238-331) -/

/-- rom_station_get: NULL unless the id is in range and the slot enabled. -/
def rom_station_get (cat : Catalog) (station_id : Nat) : Option RomStation :=
  if ROM_MAX_STATIONS ≤ station_id then Option.none
  else
    match cat.stations.get? station_id with
    | Option.some st => if st.enabled then Option.some st else Option.none
    | Option.none => Option.none

/-- rom_station_remove (lines 270-295): reject an out-of-range or disabled
id with -1; otherwise compact the entry store in a single forward pass
keeping every entry of a different station (which is exactly `List.filter`),
disable the slot, and decrement the station count.  The persistence side
effect (rom_catalog_save) and the browse-view rebuild it triggers live in the
external-collaborator layer and the BrowseState model respectively. -/
def rom_station_remove (cat : Catalog) (station_id : Nat) : Int × Catalog :=
  if ROM_MAX_STATIONS ≤ station_id then (-1, cat)
  else
    match cat.stations.get? station_id with
    | Option.none => (-1, cat)
    | Option.some st =>
      if st.enabled then
        (0, { cat with
                roms := cat.roms.filter (fun r => r.station_id ≠ station_id),
                stations := cat.stations.set station_id { st with enabled := false },
                station_count := cat.station_count - 1 })
      else (-1, cat)

/-- rom_station_update (lines 297-305): only the range of the id is checked;
the slot (enabled or not) is overwritten wholesale by memcpy. -/
def rom_station_update (cat : Catalog) (station_id : Nat) (station : RomStation) :
    Int × Catalog :=
  if ROM_MAX_STATIONS ≤ station_id then (-1, cat)
  else (0, { cat with stations := cat.stations.set station_id station })

/-- Whether the registry slot `station_id` exists and is enabled. -/
def stationEnabled (cat : Catalog) (station_id : Nat) : Bool :=
  match cat.stations.get? station_id with
  | Option.some st => st.enabled
  | Option.none => false

/-! ## Extension matching (rom_catalog.cpp lines 814-857) -/

/-- The characters after the last '.' of a C string, or none when it has no
dot: the `strrchr(filename, '.')` + 1 computation. -/
def afterLastDot : List Char → Option (List Char)
  | [] => Option.none
  | c :: t =>
    match afterLastDot t with
    | Option.some r => Option.some r
    | Option.none => if c = '.' then Option.some t else Option.none

/-- Tokenisation loop of match_extension: skip runs of separator characters,
collect maximal runs of non-separators.  The C loop separates on `' '`
exactly; the predicate is a parameter so the claim-side whitespace variant
can reuse the splitter. -/
def splitFieldsAux (sep : Char → Bool) : List Char → List Char → List (List Char)
  | [], acc => if acc = [] then [] else [acc.reverse]
  | c :: t, acc =>
    if sep c then
      if acc = [] then splitFieldsAux sep t []
      else acc.reverse :: splitFieldsAux sep t []
    else splitFieldsAux sep t (c :: acc)

/-- Split a list into maximal runs of non-separator characters. -/
def splitFields (sep : Char → Bool) (s : List Char) : List (List Char) :=
  splitFieldsAux sep s []

/-- match_extension: an empty allow-list matches everything; otherwise the
extension after the last dot (no dot: no match) is lowercased and truncated
to 8 characters, and compared by strcmp against each space-separated token of
the allow-list whose length is between 1 and 8 (longer tokens are passed
over), lowercased token against lowercased extension.  First equal token
wins. -/
def match_extension (filename extensions : List Char) : Bool :=
  if extensions = [] then true
  else
    match afterLastDot filename with
    | Option.none => false
    | Option.some ext =>
      let ext_lower := (ext.take 8).map cToLower
      (splitFields (fun c => c = ' ') extensions).any fun tok =>
        (0 < tok.length : Bool) && (tok.length ≤ 8 : Bool) &&
          (tok.map cToLower = ext_lower : Bool)

/-- Modelled from the claim wording for C3, for comparison with the code's
match_extension: scan the allow-list as WHITESPACE-separated tokens, each
token lowercased and CAPPED at 8 characters (rather than skipped when
longer), against the lowercased 8-character-truncated extension. -/
def claim_match_extension (filename extensions : List Char) : Bool :=
  if extensions = [] then true
  else
    match afterLastDot filename with
    | Option.none => false
    | Option.some ext =>
      let ext_lower := (ext.take 8).map cToLower
      (splitFields (fun c => c.isWhitespace) extensions).any fun tok =>
        ((tok.take 8).map cToLower = ext_lower : Bool)

theorem afterLastDot_none_iff : ∀ f : List Char,
    afterLastDot f = Option.none ↔ '.' ∉ f := by
  intro f
  induction f with
  | nil => simp [afterLastDot]
  | cons c t ih =>
    simp only [afterLastDot, List.mem_cons]
    cases h : afterLastDot t with
    | some r =>
      rw [h] at ih
      simp only []
      constructor
      · intro hx; cases hx
      · intro hx
        exact absurd (by simp at ih; exact ih) (fun hmem => hx (Or.inr hmem))
    | none =>
      rw [h] at ih
      by_cases hc : c = '.'
      · subst hc
        simp
      · rw [if_neg hc]
        simp only [true_iff]
        intro hx
        rcases hx with hx | hx
        · exact hc hx.symm
        · exact (ih.mp rfl) hx

theorem afterLastDot_some_iff : ∀ f ext : List Char,
    afterLastDot f = Option.some ext ↔
      ∃ pre, f = pre ++ '.' :: ext ∧ '.' ∉ ext := by
  intro f
  induction f with
  | nil =>
    intro ext
    simp only [afterLastDot]
    constructor
    · intro h; cases h
    · rintro ⟨pre, hpre, _⟩
      exact absurd hpre (by simp)
  | cons c t ih =>
    intro ext
    simp only [afterLastDot]
    cases h : afterLastDot t with
    | some r =>
      simp only [Option.some.injEq]
      constructor
      · intro hre
        subst hre
        rcases (ih r).mp h with ⟨pre, hpre, hnd⟩
        exact ⟨c :: pre, by simp [hpre], hnd⟩
      · rintro ⟨pre, hpre, hnd⟩
        cases pre with
        | nil =>
          simp only [List.nil_append, List.cons.injEq] at hpre
          have hnone : afterLastDot t = Option.none := by
            rw [afterLastDot_none_iff, hpre.2]; exact hnd
          rw [hnone] at h; cases h
        | cons p ps =>
          simp only [List.cons_append, List.cons.injEq] at hpre
          have hsome : afterLastDot t = Option.some ext := (ih ext).mpr ⟨ps, hpre.2, hnd⟩
          rw [hsome] at h
          exact (Option.some.injEq .. ▸ h).symm
    | none =>
      have hnd : '.' ∉ t := (afterLastDot_none_iff t).mp h
      by_cases hc : c = '.'
      · subst hc
        rw [if_pos rfl]
        simp only [Option.some.injEq]
        constructor
        · rintro rfl
          exact ⟨[], rfl, hnd⟩
        · rintro ⟨pre, hpre, hnd2⟩
          cases pre with
          | nil =>
            simpa using hpre
          | cons p ps =>
            simp only [List.cons_append, List.cons.injEq] at hpre
            exact absurd (hpre.2 ▸ List.mem_append_right ps (List.mem_cons_self '.' ext)) hnd
      · rw [if_neg hc]
        constructor
        · intro hx; cases hx
        · rintro ⟨pre, hpre, hnd2⟩
          cases pre with
          | nil =>
            simp only [List.nil_append, List.cons.injEq] at hpre
            exact absurd hpre.1 hc
          | cons p ps =>
            simp only [List.cons_append, List.cons.injEq] at hpre
            exact absurd (hpre.2 ▸ List.mem_append_right ps (List.mem_cons_self '.' ext)) hnd

/-! ## Scanning (rom_catalog.cpp lines 337-478)

The filesystem collaborators (opendir/readdir/stat, PathIsDir, FileExists,
getFullPath) become a `ScanEnv`: a map from directory paths to listings plus
a file-existence predicate.  The cooperative scan-cancel flag is cleared at
the start of every scan and, in this single-threaded embedding, nothing can
set it mid-scan, so the cancel checks never fire. -/

/-- One readdir entry: a regular file with its stat size/mtime, or a
subdirectory. -/
inductive DirEnt where
  | file (name : List Char) (size : Nat) (date : Nat)
  | subdir (name : List Char)
deriving DecidableEq

/-- Filesystem and path collaborators consumed by the scanner. -/
structure ScanEnv where
  gamesDir : List Char
  rootDir : List Char
  fileExists : List Char → Bool
  dirAt : List Char → Option (List DirEnt)

/-- The characters before the last '.', or none when there is no dot. -/
def beforeLastDot : List Char → Option (List Char)
  | [] => Option.none
  | c :: t =>
    match beforeLastDot t with
    | Option.some r => Option.some (c :: r)
    | Option.none => if c = '.' then Option.some [] else Option.none

/-- extract_display_name (lines 859-873): strip the extension (whole name if
no dot), cap at the 255 characters that fit the 256-byte buffer, and render
underscores as spaces. -/
def extract_display_name (filename : List Char) : List Char :=
  (((beforeLastDot filename).getD filename).take 255).map
    fun c => if c = '_' then ' ' else c

/-- add_rom_entry (lines 337-381) minus the store bookkeeping: construct the
entry for a matching file, probing the collection-wide then the per-station
preview folder to pre-populate the preview flag.  Capacity growth is assumed
to succeed (realloc failure is allocation-level and unmodelled). -/
def add_rom_entry (env : ScanEnv) (station : RomStation) (path filename : List Char)
    (size date : Nat) : RomEntry :=
  let nm := extract_display_name filename
  let p1 := env.gamesDir ++ ("/previews/".toList) ++ nm ++ (".png".toList)
  let base : RomEntry :=
    { name := nm, filename := filename.take 255, path := path.take 1023,
      station_id := station.id, size := size, date := date,
      has_preview := false, preview_path := [] }
  if env.fileExists p1 then
    { base with has_preview := true, preview_path := p1.take 1023 }
  else
    let p2 := env.gamesDir ++ '/' :: station.short_name ++ ("/previews/".toList)
                ++ nm ++ (".png".toList)
    if env.fileExists p2 then
      { base with has_preview := true, preview_path := p2.take 1023 }
    else base

/-- scan_directory_recursive (lines 383-412).  `gas` is the number of
directory levels the depth check still allows: a call at C depth `d` has
`gas = 6 - d`, and the `depth > 5` early return is `gas = 0`.  Dot-prefixed
names are skipped, subdirectories are recursed into, and matching regular
files are appended in readdir order. -/
def scan_directory_recursive (env : ScanEnv) (station : RomStation) :
    Nat → List Char → List RomEntry
  | 0, _ => []
  | Nat.succ gas, dirPath =>
    match env.dirAt dirPath with
    | Option.none => []
    | Option.some ents =>
      ents.foldr
        (fun ent rest =>
          (match ent with
           | DirEnt.file nm size date =>
             if nm.head? = Option.some '.' then []
             else if match_extension nm station.extensions then
               [add_rom_entry env station (dirPath ++ '/' :: nm) nm size date]
             else []
           | DirEnt.subdir nm =>
             if nm.head? = Option.some '.' then []
             else scan_directory_recursive env station gas (dirPath ++ '/' :: nm)) ++ rest)
        []

/-- rom_scan_station (lines 414-458): purge the station's existing entries
(stable compaction = filter), then scan `<games>/<rom_path>` and
`<root>/<rom_path>` (both, in that order, when both are directories — a
missing directory contributes nothing), appending the finds; record the
per-station count and return it.  -1 when the station does not exist. -/
def rom_scan_station (env : ScanEnv) (cat : Catalog) (station_id : Nat) : Int × Catalog :=
  match rom_station_get cat station_id with
  | Option.none => (-1, cat)
  | Option.some station =>
    let purged := cat.roms.filter (fun r => r.station_id ≠ station_id)
    let found := scan_directory_recursive env station 6 (env.gamesDir ++ '/' :: station.rom_path)
             ++ scan_directory_recursive env station 6 (env.rootDir ++ '/' :: station.rom_path)
    ((found.length : Int),
     { cat with
         roms := purged ++ found,
         stations := cat.stations.set station_id { station with rom_count := found.length } })

/-- The loop of rom_scan_all (lines 460-478), iterating slots `i` upward
while `fuel` counts the remaining iterations of the fixed 32-slot loop.
Returns the accumulated total, the final catalog (scan_progress 100 at the
end), and — as an observation trace for the progress claim — the list of
scan_progress values set before each enabled station's scan. -/
def rom_scan_all_loop (env : ScanEnv) : Nat → Nat → Catalog → Int × Catalog × List Nat
  | 0, _, cat => (0, { cat with scan_progress := 100 }, [])
  | Nat.succ fuel, i, cat =>
    match cat.stations.get? i with
    | Option.some st =>
      if st.enabled then
        let p := (i * 100) / cat.station_count
        let cat1 := { cat with scan_progress := p }
        let r1 := rom_scan_station env cat1 i
        let r2 := rom_scan_all_loop env fuel (i + 1) r1.2
        (r1.1 + r2.1, r2.2.1, p :: r2.2.2)
      else rom_scan_all_loop env fuel (i + 1) cat
    | Option.none => rom_scan_all_loop env fuel (i + 1) cat

/-- rom_scan_all: iterate all 32 slots from 0. -/
def rom_scan_all (env : ScanEnv) (cat : Catalog) : Int × Catalog × List Nat :=
  rom_scan_all_loop env ROM_MAX_STATIONS 0 cat

/-- Modelled from the spec (section 4.2): before the k-th enabled station's
scan, k stations have completed out of `total` enabled, so the reported
progress is `k * 100 / total`. -/
def spec_progress_reports (cat : Catalog) : List Nat :=
  let total := (cat.stations.filter (fun s => s.enabled)).length
  (List.range total).map fun k => (k * 100) / total

/-! ## Preview resolver (rom_preview.cpp)

The imlib2 image library, the wget download helper and the filesystem become
a `FetchEnv`.  An owned image is `Option (Nat x Nat)`: present with its
(width, height) exactly when image_data is non-NULL. -/

/-- preview_status_t. -/
inductive PreviewStatus where
  | none | loading | ready | notFound | error | noInternet
deriving DecidableEq

/-- rom_preview_data_t, the single shared preview slot g_current_preview. -/
structure PreviewData where
  status : PreviewStatus
  image : Option (Nat × Nat)
  rom_name : List Char
  station_id : Nat
deriving DecidableEq

/-- Collaborators of the preview resolver: games directory path,
reachability-probe outcome (getaddrinfo on github.com:443), wget download to
a file (url, save path), file existence, and image decoding (path to
dimensions on success). -/
structure FetchEnv where
  gamesDir : List Char
  internetUp : Bool
  download : List Char → List Char → Bool
  fileExists : List Char → Bool
  loadImage : List Char → Option (Nat × Nat)

/-- PREVIEW_CACHE_DIR. -/
def PREVIEW_CACHE_DIR : List Char := "previews".toList

/-- rom_preview_clear (rom_preview.cpp lines 410-420): release any held
image and zero the slot. -/
def rom_preview_clear : PreviewData :=
  { status := PreviewStatus.none, image := Option.none, rom_name := [], station_id := 0 }

/-- The standard-location loop of rom_preview_load_local (lines 106-137):
try each candidate path, loading the first existing file that decodes;
`notFound` on exhaustion (writing onto the freshly cleared slot). -/
def try_preview_paths (env : FetchEnv) (rom : RomEntry) : List (List Char) → Int × PreviewData
  | [] => (-1, { rom_preview_clear with status := PreviewStatus.notFound })
  | p :: rest =>
    if env.fileExists p then
      match env.loadImage p with
      | Option.some wh =>
        (0, { status := PreviewStatus.ready, image := Option.some wh,
              rom_name := rom.name.take 255, station_id := rom.station_id })
      | Option.none => try_preview_paths env rom rest
    else try_preview_paths env rom rest

/-- rom_preview_load_local (lines 83-141): clear the slot, try the entry's
recorded preview path, then the three conventional cache layouts.  The third
snprintf pattern has only three `%s` holes for its four arguments, so it
builds `<games>/previews/<station>.png` — the entry name is unused there;
the embedding reproduces that. -/
def rom_preview_load_local (env : FetchEnv) (cat : Catalog) (rom : RomEntry) :
    Int × PreviewData :=
  let station_name :=
    match rom_station_get cat rom.station_id with
    | Option.some st => st.short_name
    | Option.none => "unknown".toList
  let base := env.gamesDir ++ '/' :: PREVIEW_CACHE_DIR ++ '/' :: station_name
  let fallback := try_preview_paths env rom
    [ base ++ '/' :: rom.name ++ (".png".toList),
      base ++ '/' :: rom.name ++ (".jpg".toList),
      env.gamesDir ++ '/' :: PREVIEW_CACHE_DIR ++ '/' :: station_name ++ (".png".toList) ]
  if rom.has_preview ∧ rom.preview_path ≠ [] then
    match env.loadImage rom.preview_path with
    | Option.some wh =>
      (0, { status := PreviewStatus.ready, image := Option.some wh,
            rom_name := rom.name.take 255, station_id := rom.station_id })
    | Option.none => fallback
  else fallback

/-- url_encode (lines 148-169): percent-encoding with '+' for space into a
512-byte buffer; the loop stops when fewer than 4 slots remain (`i` tracks
the output length). -/
def url_encode_loop : List Char → Nat → List Char
  | [], _ => []
  | c :: t, i =>
    if i < 508 then
      if ('A' ≤ c ∧ c ≤ 'Z') ∨ ('a' ≤ c ∧ c ≤ 'z') ∨ ('0' ≤ c ∧ c ≤ '9')
         ∨ c = '-' ∨ c = '_' ∨ c = '.' ∨ c = '~' then
        c :: url_encode_loop t (i + 1)
      else if c = ' ' then
        '+' :: url_encode_loop t (i + 1)
      else
        '%' :: ("0123456789ABCDEF".toList.getD ((c.toNat / 16) % 16) '0')
            :: ("0123456789ABCDEF".toList.getD (c.toNat % 16) '0')
            :: url_encode_loop t (i + 3)
    else []

/-- url_encode entry point. -/
def url_encode (s : List Char) : List Char := url_encode_loop s 0

/-- get_libretro_system_name (lines 172-217): case-insensitive table lookup
from station short name to libretro-thumbnails collection name; unmapped
names pass through. -/
def libretro_mappings : List (List Char × List Char) :=
  [ ("NES".toList,      "Nintendo_-_Nintendo_Entertainment_System".toList),
    ("SNES".toList,     "Nintendo_-_Super_Nintendo_Entertainment_System".toList),
    ("Genesis".toList,  "Sega_-_Mega_Drive_-_Genesis".toList),
    ("SMS".toList,      "Sega_-_Master_System_-_Mark_III".toList),
    ("GB".toList,       "Nintendo_-_Game_Boy".toList),
    ("GBC".toList,      "Nintendo_-_Game_Boy_Color".toList),
    ("GBA".toList,      "Nintendo_-_Game_Boy_Advance".toList),
    ("N64".toList,      "Nintendo_-_Nintendo_64".toList),
    ("A2600".toList,    "Atari_-_2600".toList),
    ("A7800".toList,    "Atari_-_7800".toList),
    ("A5200".toList,    "Atari_-_5200".toList),
    ("TG16".toList,     "NEC_-_PC_Engine_-_TurboGrafx_16".toList),
    ("NeoGeo".toList,   "SNK_-_Neo_Geo".toList),
    ("Arcade".toList,   "MAME".toList),
    ("PS1".toList,      "Sony_-_PlayStation".toList),
    ("PSX".toList,      "Sony_-_PlayStation".toList),
    ("SegaCD".toList,   "Sega_-_Mega-CD_-_Sega_CD".toList),
    ("Saturn".toList,   "Sega_-_Saturn".toList),
    ("S32X".toList,     "Sega_-_32X".toList),
    ("C64".toList,      "Commodore_-_64".toList),
    ("Amiga".toList,    "Commodore_-_Amiga".toList),
    ("AtariST".toList,  "Atari_-_ST".toList),
    ("MSX".toList,      "Microsoft_-_MSX".toList),
    ("Spectrum".toList, "Sinclair_-_ZX_Spectrum".toList),
    ("CPC".toList,      "Amstrad_-_CPC".toList),
    ("Coleco".toList,   "Coleco_-_ColecoVision".toList),
    ("Intv".toList,     "Mattel_-_Intellivision".toList),
    ("Vectrex".toList,  "GCE_-_Vectrex".toList),
    ("WS".toList,       "Bandai_-_WonderSwan".toList),
    ("NGP".toList,      "SNK_-_Neo_Geo_Pocket".toList) ]

/-- Scan the mapping table with strcasecmp, passing unmapped names through. -/
def get_libretro_system_name (short_name : List Char) : List Char :=
  match libretro_mappings.find? (fun m => strcasecmp short_name m.1 = 0) with
  | Option.some m => m.2
  | Option.none => short_name

/-- rom_preview_fetch_online (lines 237-299).  Returns the C return code,
the resulting preview slot, and — as an observation for the zero-attempts
claim — how many `download_file` calls were made.  A NULL station aborts
before anything else; a failed reachability probe sets `noInternet` and
aborts before any download; otherwise the three libretro-thumbnails
categories are tried in order (Named_Boxarts, Named_Snaps, Named_Titles),
the first successful download being finalised through
rom_preview_load_local. -/
def rom_preview_fetch_online (env : FetchEnv) (cat : Catalog) (rom : RomEntry)
    (pre : PreviewData) : Int × PreviewData × Nat :=
  match rom_station_get cat rom.station_id with
  | Option.none => (-1, pre, 0)
  | Option.some station =>
    if env.internetUp = false then
      (-1, { pre with status := PreviewStatus.noInternet }, 0)
    else
      let pre1 := { pre with status := PreviewStatus.loading }
      let save_path := env.gamesDir ++ '/' :: PREVIEW_CACHE_DIR ++ '/' :: station.short_name
                        ++ '/' :: rom.name ++ (".png".toList)
      let sys := get_libretro_system_name station.short_name
      let enc := url_encode rom.name
      let mkUrl := fun (category : List Char) =>
        ("https://thumbnails.libretro.com/".toList) ++ sys ++ '/' :: category
          ++ '/' :: enc ++ (".png".toList)
      if env.download (mkUrl ("Named_Boxarts".toList)) save_path then
        let r := rom_preview_load_local env cat rom
        (r.1, r.2, 1)
      else if env.download (mkUrl ("Named_Snaps".toList)) save_path then
        let r := rom_preview_load_local env cat rom
        (r.1, r.2, 2)
      else if env.download (mkUrl ("Named_Titles".toList)) save_path then
        let r := rom_preview_load_local env cat rom
        (r.1, r.2, 3)
      else
        (-1, { pre1 with status := PreviewStatus.notFound }, 3)

/-! ## Async fetch controller (rom_preview.cpp lines 29-38 and 305-341)

The controller is two threads sharing three volatile words: the caller
thread executing rom_preview_fetch_async, and at most the one background
thread created by it running fetch_thread_func.  The embedding is a labelled
transition system whose atomic steps are the individual C statements of
those two functions; thread interleaving is the nondeterminism of the step
relation.  `workers` lists the live background threads (their program
counters): pthread_create appends one, and the combination of
`fetch_in_progress = 0; return NULL;` with thread termination — the thread's
last observable action, which pthread_join waits for — is one exit step that
removes it.  The body of rom_preview_fetch_online is abstracted to the one
`fetchRun` step that writes its terminal status (its internal writes end in
exactly one transition into a terminal status, see
rom_preview_fetch_online above). -/

/-- Program counter of the caller inside rom_preview_fetch_async;
`idle` is "not inside the function". -/
inductive MainPC where
  | idle
  | checking    -- about to read fetch_in_progress        (line 319)
  | cancelling  -- about to execute fetch_cancel = 1      (line 321)
  | joining     -- blocked in pthread_join                (line 322)
  | resetting   -- about to execute fetch_cancel = 0      (line 325)
  | setting     -- about to execute fetch_in_progress = 1 (line 326)
  | loading     -- about to set status = LOADING          (line 327)
  | spawning    -- about to call pthread_create           (line 329)
deriving DecidableEq

/-- Program counter of a background fetch thread (fetch_thread_func). -/
inductive WorkerPC where
  | checkCancel  -- about to test !fetch_cancel && rom    (line 309)
  | fetching     -- running rom_preview_fetch_online      (line 310)
  | finishing    -- about to execute fetch_in_progress = 0 and exit (line 313)
deriving DecidableEq

/-- The shared state of the async fetch controller. -/
structure AsyncState where
  inProgress : Bool
  cancel : Bool
  status : PreviewStatus
  workers : List WorkerPC
  mainPC : MainPC
deriving DecidableEq

/-- Whether a preview status is terminal (a settled fetch outcome). -/
def statusTerminal : PreviewStatus → Bool
  | PreviewStatus.ready => true
  | PreviewStatus.notFound => true
  | PreviewStatus.error => true
  | PreviewStatus.noInternet => true
  | _ => false

/-- Step labels, one per atomic statement. -/
inductive ALabel where
  | callStart | checkTrue | checkFalse | setCancel | joinPrev
  | resetCancel | setInProgress | setLoading | spawnOk | spawnFail
  | runCancelled | runBegin
  | fetchRun (t : PreviewStatus)
  | workerExit
deriving DecidableEq

/-- The labelled step relation of the async fetch controller. -/
inductive AStep : AsyncState → ALabel → AsyncState → Prop where
  | callStart (s : AsyncState) (h : s.mainPC = MainPC.idle) :
      AStep s ALabel.callStart { s with mainPC := MainPC.checking }
  | checkTrue (s : AsyncState) (h : s.mainPC = MainPC.checking) (hp : s.inProgress = true) :
      AStep s ALabel.checkTrue { s with mainPC := MainPC.cancelling }
  | checkFalse (s : AsyncState) (h : s.mainPC = MainPC.checking) (hp : s.inProgress = false) :
      AStep s ALabel.checkFalse { s with mainPC := MainPC.resetting }
  | setCancel (s : AsyncState) (h : s.mainPC = MainPC.cancelling) :
      AStep s ALabel.setCancel { s with cancel := true, mainPC := MainPC.joining }
  | joinPrev (s : AsyncState) (h : s.mainPC = MainPC.joining) (hw : s.workers = []) :
      AStep s ALabel.joinPrev { s with mainPC := MainPC.resetting }
  | resetCancel (s : AsyncState) (h : s.mainPC = MainPC.resetting) :
      AStep s ALabel.resetCancel { s with cancel := false, mainPC := MainPC.setting }
  | setInProgress (s : AsyncState) (h : s.mainPC = MainPC.setting) :
      AStep s ALabel.setInProgress { s with inProgress := true, mainPC := MainPC.loading }
  | setLoading (s : AsyncState) (h : s.mainPC = MainPC.loading) :
      AStep s ALabel.setLoading { s with status := PreviewStatus.loading, mainPC := MainPC.spawning }
  | spawnOk (s : AsyncState) (h : s.mainPC = MainPC.spawning) :
      AStep s ALabel.spawnOk { s with workers := s.workers ++ [WorkerPC.checkCancel],
                                      mainPC := MainPC.idle }
  | spawnFail (s : AsyncState) (h : s.mainPC = MainPC.spawning) :
      AStep s ALabel.spawnFail { s with inProgress := false, status := PreviewStatus.error,
                                        mainPC := MainPC.idle }
  | runCancelled (s : AsyncState) (l r : List WorkerPC)
      (hw : s.workers = l ++ WorkerPC.checkCancel :: r) (hc : s.cancel = true) :
      AStep s ALabel.runCancelled { s with workers := l ++ WorkerPC.finishing :: r }
  | runBegin (s : AsyncState) (l r : List WorkerPC)
      (hw : s.workers = l ++ WorkerPC.checkCancel :: r) (hc : s.cancel = false) :
      AStep s ALabel.runBegin { s with workers := l ++ WorkerPC.fetching :: r }
  | fetchRun (s : AsyncState) (l r : List WorkerPC) (t : PreviewStatus)
      (hw : s.workers = l ++ WorkerPC.fetching :: r) (ht : statusTerminal t = true) :
      AStep s (ALabel.fetchRun t) { s with status := t, workers := l ++ WorkerPC.finishing :: r }
  | workerExit (s : AsyncState) (l r : List WorkerPC)
      (hw : s.workers = l ++ WorkerPC.finishing :: r) :
      AStep s ALabel.workerExit { s with inProgress := false, workers := l ++ r }

/-- The state at module load: all flags clear, status NONE, no thread. -/
def initAsync : AsyncState :=
  { inProgress := false, cancel := false, status := PreviewStatus.none,
    workers := [], mainPC := MainPC.idle }

/-- Reachability from the initial state under any interleaving. -/
def AsyncReachable (s : AsyncState) : Prop :=
  Relation.ReflTransGen (fun a b => ∃ l, AStep a l b) initAsync s

/-- rom_preview_fetch_poll (lines 338-341): complete iff no fetch is in
progress. -/
def rom_preview_fetch_poll (s : AsyncState) : Bool := !s.inProgress

/-- Labels belonging to a background thread. -/
def workerLabel : ALabel → Bool
  | ALabel.runCancelled => true
  | ALabel.runBegin => true
  | ALabel.fetchRun _ => true
  | ALabel.workerExit => true
  | _ => false

/-- Traces consisting of background-thread steps only. -/
inductive WorkerTrace : AsyncState → List ALabel → AsyncState → Prop where
  | refl (s : AsyncState) : WorkerTrace s [] s
  | step {s s' s'' : AsyncState} {l : ALabel} {ls : List ALabel}
      (hstep : AStep s l s') (hw : workerLabel l = true)
      (htr : WorkerTrace s' ls s'') : WorkerTrace s (l :: ls) s''

/-- Count of rom_preview_fetch_online executions (terminal status
transitions) in a trace. -/
def countFetchRuns (ls : List ALabel) : Nat :=
  ls.countP fun l => match l with | ALabel.fetchRun _ => true | _ => false

/-- The inductive invariant of the async controller. -/
def AsyncInv (s : AsyncState) : Prop :=
  s.workers.length ≤ 1 ∧
  (s.inProgress = false → s.workers = []) ∧
  ((s.mainPC = MainPC.resetting ∨ s.mainPC = MainPC.setting ∨
    s.mainPC = MainPC.loading ∨ s.mainPC = MainPC.spawning) → s.workers = []) ∧
  (s.mainPC = MainPC.joining → s.cancel = true) ∧
  ((s.mainPC = MainPC.setting ∨ s.mainPC = MainPC.loading ∨
    s.mainPC = MainPC.spawning) → s.cancel = false) ∧
  ((s.mainPC = MainPC.loading ∨ s.mainPC = MainPC.spawning) → s.inProgress = true)

theorem async_inv_init : AsyncInv initAsync := by
  unfold AsyncInv initAsync; decide

/-- A decomposition `l ++ a :: r` of a list of length at most one forces
`l = r = []`. -/
theorem short_decomp {α : Type} {l r : List α} {a : α} {w : List α}
    (hw : w = l ++ a :: r) (hlen : w.length ≤ 1) : l = [] ∧ r = [] ∧ w = [a] := by
  subst hw
  cases l with
  | nil =>
    cases r with
    | nil => exact ⟨rfl, rfl, rfl⟩
    | cons x xs => simp at hlen
  | cons x xs => simp at hlen

theorem async_inv_step {s s' : AsyncState} {l : ALabel}
    (hinv : AsyncInv s) (hstep : AStep s l s') : AsyncInv s' := by
  obtain ⟨h1, h2, h3, h4, h5, h6⟩ := hinv
  cases hstep with
  | callStart h =>
    refine ⟨h1, h2, ?_, ?_, ?_, ?_⟩ <;> exact fun hx => absurd hx (by simp)
  | checkTrue h hp =>
    refine ⟨h1, h2, ?_, ?_, ?_, ?_⟩ <;> exact fun hx => absurd hx (by simp)
  | checkFalse h hp =>
    refine ⟨h1, h2, fun _ => h2 hp, ?_, ?_, ?_⟩ <;> exact fun hx => absurd hx (by simp)
  | setCancel h =>
    refine ⟨h1, h2, ?_, fun _ => rfl, ?_, ?_⟩ <;> exact fun hx => absurd hx (by simp)
  | joinPrev h hw =>
    refine ⟨h1, h2, fun _ => hw, ?_, ?_, ?_⟩ <;> exact fun hx => absurd hx (by simp)
  | resetCancel h =>
    refine ⟨h1, h2, fun _ => h3 (Or.inl h), ?_, fun _ => rfl, ?_⟩ <;>
      exact fun hx => absurd hx (by simp)
  | setInProgress h =>
    refine ⟨h1, ?_, fun _ => h3 (Or.inr (Or.inl h)), ?_, fun _ => h5 (Or.inl h), fun _ => rfl⟩ <;>
      exact fun hx => absurd hx (by simp)
  | setLoading h =>
    refine ⟨h1, h2, fun _ => h3 (Or.inr (Or.inr (Or.inl h))), ?_,
            fun _ => h5 (Or.inr (Or.inl h)), fun _ => h6 (Or.inl h)⟩
    exact fun hx => absurd hx (by simp)
  | spawnOk h =>
    have hw : s.workers = [] := h3 (Or.inr (Or.inr (Or.inr h)))
    have hip : s.inProgress = true := h6 (Or.inr h)
    refine ⟨?_, ?_, ?_, ?_, ?_, ?_⟩
    · simp [hw]
    · intro hx
      have hx' : s.inProgress = false := hx
      cases hip.symm.trans hx'
    · exact fun hx => absurd hx (by simp)
    · exact fun hx => absurd hx (by simp)
    · exact fun hx => absurd hx (by simp)
    · exact fun hx => absurd hx (by simp)
  | spawnFail h =>
    have hw : s.workers = [] := h3 (Or.inr (Or.inr (Or.inr h)))
    refine ⟨h1, fun _ => hw, ?_, ?_, ?_, ?_⟩ <;> exact fun hx => absurd hx (by simp)
  | runCancelled wl wr hw hc =>
    obtain ⟨rfl, rfl, hw1⟩ := short_decomp hw h1
    refine ⟨by simp, ?_, ?_, h4, h5, h6⟩
    · intro hx
      have h0 := h2 hx
      rw [hw1] at h0; cases h0
    · intro hx
      have h0 := h3 hx
      rw [hw1] at h0; cases h0
  | runBegin wl wr hw hc =>
    obtain ⟨rfl, rfl, hw1⟩ := short_decomp hw h1
    refine ⟨by simp, ?_, ?_, h4, h5, h6⟩
    · intro hx
      have h0 := h2 hx
      rw [hw1] at h0; cases h0
    · intro hx
      have h0 := h3 hx
      rw [hw1] at h0; cases h0
  | fetchRun wl wr t hw ht =>
    obtain ⟨rfl, rfl, hw1⟩ := short_decomp hw h1
    refine ⟨by simp, ?_, ?_, h4, h5, h6⟩
    · intro hx
      have h0 := h2 hx
      rw [hw1] at h0; cases h0
    · intro hx
      have h0 := h3 hx
      rw [hw1] at h0; cases h0
  | workerExit wl wr hw =>
    obtain ⟨rfl, rfl, hw1⟩ := short_decomp hw h1
    refine ⟨by simp, fun _ => rfl, fun _ => rfl, h4, h5, ?_⟩
    intro hx
    have hx' : s.mainPC = MainPC.loading ∨ s.mainPC = MainPC.spawning := hx
    have h0 := h3 (by
      rcases hx' with h | h
      · exact Or.inr (Or.inr (Or.inl h))
      · exact Or.inr (Or.inr (Or.inr h)))
    rw [hw1] at h0; cases h0

theorem async_inv_reachable {s : AsyncState} (h : AsyncReachable s) : AsyncInv s := by
  induction h with
  | refl => exact async_inv_init
  | tail _ hstep ih =>
    obtain ⟨l, hstep⟩ := hstep
    exact async_inv_step ih hstep

theorem no_worker_step_from_empty {s s' : AsyncState} {l : ALabel}
    (hstep : AStep s l s') (hwl : workerLabel l = true) (he : s.workers = []) : False := by
  cases hstep with
  | callStart h => exact absurd hwl (by simp [workerLabel])
  | checkTrue h hp => exact absurd hwl (by simp [workerLabel])
  | checkFalse h hp => exact absurd hwl (by simp [workerLabel])
  | setCancel h => exact absurd hwl (by simp [workerLabel])
  | joinPrev h hw => exact absurd hwl (by simp [workerLabel])
  | resetCancel h => exact absurd hwl (by simp [workerLabel])
  | setInProgress h => exact absurd hwl (by simp [workerLabel])
  | setLoading h => exact absurd hwl (by simp [workerLabel])
  | spawnOk h => exact absurd hwl (by simp [workerLabel])
  | spawnFail h => exact absurd hwl (by simp [workerLabel])
  | runCancelled wl wr hw hc => exact absurd (he.symm.trans hw) (by simp)
  | runBegin wl wr hw hc => exact absurd (he.symm.trans hw) (by simp)
  | fetchRun wl wr t hw ht => exact absurd (he.symm.trans hw) (by simp)
  | workerExit wl wr hw => exact absurd (he.symm.trans hw) (by simp)

theorem worker_trace_from_empty {s s' : AsyncState} {ls : List ALabel}
    (htr : WorkerTrace s ls s') (he : s.workers = []) : countFetchRuns ls = 0 := by
  cases htr with
  | refl => rfl
  | step hstep hwl htr' => exact absurd he (fun he => no_worker_step_from_empty hstep hwl he)

theorem worker_trace_from_finishing {s s' : AsyncState} {ls : List ALabel}
    (htr : WorkerTrace s ls s') (hw : s.workers = [WorkerPC.finishing])
    (hend : s'.workers = []) : countFetchRuns ls = 0 := by
  have hlen : s.workers.length ≤ 1 := by rw [hw]; simp
  cases htr with
  | refl => rw [hw] at hend; cases hend
  | step hstep hwl htr' =>
    cases hstep with
    | callStart h => exact absurd hwl (by simp [workerLabel])
    | checkTrue h hp => exact absurd hwl (by simp [workerLabel])
    | checkFalse h hp => exact absurd hwl (by simp [workerLabel])
    | setCancel h => exact absurd hwl (by simp [workerLabel])
    | joinPrev h hw2 => exact absurd hwl (by simp [workerLabel])
    | resetCancel h => exact absurd hwl (by simp [workerLabel])
    | setInProgress h => exact absurd hwl (by simp [workerLabel])
    | setLoading h => exact absurd hwl (by simp [workerLabel])
    | spawnOk h => exact absurd hwl (by simp [workerLabel])
    | spawnFail h => exact absurd hwl (by simp [workerLabel])
    | runCancelled wl wr hw2 hc =>
      obtain ⟨rfl, rfl, hw1⟩ := short_decomp hw2 hlen
      exact absurd (hw.symm.trans hw1) (by simp)
    | runBegin wl wr hw2 hc =>
      obtain ⟨rfl, rfl, hw1⟩ := short_decomp hw2 hlen
      exact absurd (hw.symm.trans hw1) (by simp)
    | fetchRun wl wr t hw2 ht =>
      obtain ⟨rfl, rfl, hw1⟩ := short_decomp hw2 hlen
      exact absurd (hw.symm.trans hw1) (by simp)
    | workerExit wl wr hw2 =>
      obtain ⟨rfl, rfl, hw1⟩ := short_decomp hw2 hlen
      have hrest : countFetchRuns _ = 0 := worker_trace_from_empty htr' (by simp)
      simp [countFetchRuns, List.countP_cons] at hrest ⊢
      exact hrest

theorem worker_trace_from_fetching {s s' : AsyncState} {ls : List ALabel}
    (htr : WorkerTrace s ls s') (hw : s.workers = [WorkerPC.fetching])
    (hend : s'.workers = []) : countFetchRuns ls = 1 := by
  have hlen : s.workers.length ≤ 1 := by rw [hw]; simp
  cases htr with
  | refl => rw [hw] at hend; cases hend
  | step hstep hwl htr' =>
    cases hstep with
    | callStart h => exact absurd hwl (by simp [workerLabel])
    | checkTrue h hp => exact absurd hwl (by simp [workerLabel])
    | checkFalse h hp => exact absurd hwl (by simp [workerLabel])
    | setCancel h => exact absurd hwl (by simp [workerLabel])
    | joinPrev h hw2 => exact absurd hwl (by simp [workerLabel])
    | resetCancel h => exact absurd hwl (by simp [workerLabel])
    | setInProgress h => exact absurd hwl (by simp [workerLabel])
    | setLoading h => exact absurd hwl (by simp [workerLabel])
    | spawnOk h => exact absurd hwl (by simp [workerLabel])
    | spawnFail h => exact absurd hwl (by simp [workerLabel])
    | runCancelled wl wr hw2 hc =>
      obtain ⟨rfl, rfl, hw1⟩ := short_decomp hw2 hlen
      exact absurd (hw.symm.trans hw1) (by simp)
    | runBegin wl wr hw2 hc =>
      obtain ⟨rfl, rfl, hw1⟩ := short_decomp hw2 hlen
      exact absurd (hw.symm.trans hw1) (by simp)
    | fetchRun wl wr t hw2 ht =>
      obtain ⟨rfl, rfl, hw1⟩ := short_decomp hw2 hlen
      have hrest : countFetchRuns _ = 0 := worker_trace_from_finishing htr' (by simp) hend
      simp [countFetchRuns, List.countP_cons] at hrest ⊢
      exact hrest
    | workerExit wl wr hw2 =>
      obtain ⟨rfl, rfl, hw1⟩ := short_decomp hw2 hlen
      exact absurd (hw.symm.trans hw1) (by simp)

theorem worker_trace_from_checkCancel {s s' : AsyncState} {ls : List ALabel}
    (htr : WorkerTrace s ls s') (hw : s.workers = [WorkerPC.checkCancel])
    (hc : s.cancel = false) (hend : s'.workers = []) : countFetchRuns ls = 1 := by
  have hlen : s.workers.length ≤ 1 := by rw [hw]; simp
  cases htr with
  | refl => rw [hw] at hend; cases hend
  | step hstep hwl htr' =>
    cases hstep with
    | callStart h => exact absurd hwl (by simp [workerLabel])
    | checkTrue h hp => exact absurd hwl (by simp [workerLabel])
    | checkFalse h hp => exact absurd hwl (by simp [workerLabel])
    | setCancel h => exact absurd hwl (by simp [workerLabel])
    | joinPrev h hw2 => exact absurd hwl (by simp [workerLabel])
    | resetCancel h => exact absurd hwl (by simp [workerLabel])
    | setInProgress h => exact absurd hwl (by simp [workerLabel])
    | setLoading h => exact absurd hwl (by simp [workerLabel])
    | spawnOk h => exact absurd hwl (by simp [workerLabel])
    | spawnFail h => exact absurd hwl (by simp [workerLabel])
    | runCancelled wl wr hw2 hc2 => exact absurd (hc.symm.trans hc2) (by simp)
    | runBegin wl wr hw2 hc2 =>
      obtain ⟨rfl, rfl, hw1⟩ := short_decomp hw2 hlen
      have hrest : countFetchRuns _ = 1 := worker_trace_from_fetching htr' (by simp) hend
      simp [countFetchRuns, List.countP_cons] at hrest ⊢
      exact hrest
    | fetchRun wl wr t hw2 ht =>
      obtain ⟨rfl, rfl, hw1⟩ := short_decomp hw2 hlen
      exact absurd (hw.symm.trans hw1) (by simp)
    | workerExit wl wr hw2 =>
      obtain ⟨rfl, rfl, hw1⟩ := short_decomp hw2 hlen
      exact absurd (hw.symm.trans hw1) (by simp)

/-! ## Concrete instances used by witnesses and counterexamples -/

/-- A registry slot with the given id and enabled flag and empty strings. -/
def mkStation (id : Nat) (en : Bool) : RomStation :=
  { id := id, name := [], short_name := [], rom_path := [], core_path := [],
    extensions := [], enabled := en, rom_count := 0 }

/-- An entry of the given station with empty strings. -/
def mkEntry (sid : Nat) : RomEntry :=
  { name := [], filename := [], path := [], station_id := sid, size := 0, date := 0,
    has_preview := false, preview_path := [] }

/-- A scan environment whose filesystem is completely empty. -/
def envEmpty : ScanEnv :=
  { gamesDir := [], rootDir := [], fileExists := fun _ => false,
    dirAt := fun _ => Option.none }

/-- A registry with exactly two enabled stations, in slots 2 and 3. -/
def cat23 : Catalog :=
  { stations := mkStation 0 false :: mkStation 1 false :: mkStation 2 true
      :: mkStation 3 true :: List.replicate 28 (mkStation 0 false),
    station_count := 2, roms := [], scan_progress := 0 }

/-! ## Claim theorems -/

/-- Claim C1: for every catalog state, station filter and search text, the
rebuilt browse view is a subsequence of the entry store (hence in Entry Store
order) containing exactly the entries whose station matches the filter (or
the filter is negative, i.e. all stations) and whose display name contains
the search text as a case-insensitive substring (or the text is empty); and
the view length is monotonically non-increasing as the search text is
extended. -/
theorem C1_rebuild_filtered_view (roms : List RomEntry) (sf : Int) (txt ext1 : List Char) :
    (rebuild_filtered_list roms sf txt).Sublist roms ∧
    (∀ e, e ∈ rebuild_filtered_list roms sf txt ↔
      e ∈ roms ∧ (sf < 0 ∨ (e.station_id : Int) = sf) ∧ (txt = [] ∨ CISubstr txt e.name)) ∧
    (rebuild_filtered_list roms sf (txt ++ ext1)).length ≤
      (rebuild_filtered_list roms sf txt).length := by
  refine ⟨List.filter_sublist roms, ?_, ?_⟩
  · intro e
    rw [rebuild_filtered_list, List.mem_filter, rom_passes_filter_iff]
  · exact length_filter_mono (fun a => rom_passes_filter_append) roms

/-- Claim C2 (code-bug evidence): rom_scan_all computes the progress set
before scanning the enabled station in slot i as (i * 100) / station_count —
the slot index, not the number of stations completed so far.  With the two
enabled stations sitting in slots 2 and 3, the code reports progress 100 and
then 150 (out of range 0-100, contradicting the scan_progress field's own
documentation), where the specified formula reports 0 and then 50.  The
returned total is still the sum of the per-station counts (0 here on an
empty filesystem). -/
theorem C2_scan_progress_uses_slot_index :
    (rom_scan_all envEmpty cat23).2.2 = [100, 150] ∧
    spec_progress_reports cat23 = [0, 50] ∧
    (rom_scan_all envEmpty cat23).1 = 0 := by decide

/-- Claim C3 counterexample: a 9-character allow-list token is skipped by
match_extension (`token_len <= 8` guard), not capped at 8 characters as the
claim states, so the file "a.longext12" does not match the allow-list
"longext12" although the claimed algorithm (cap both sides at 8) matches it. -/
theorem C3_counterexample :
    match_extension ("a.longext12".toList) ("longext12".toList) = false ∧
    claim_match_extension ("a.longext12".toList) ("longext12".toList) = true := by decide

/-- Claim C3 as amended: an empty allow-list matches every filename;
otherwise the filename must have a dot, and the characters after its last
dot, lowercased and truncated to 8, must equal the lowercase of some
SPACE-separated allow-list token whose length is between 1 and 8 (tokens
longer than 8 characters are ignored, not truncated). -/
theorem C3_match_extension_amended (f e : List Char) :
    match_extension f e = true ↔
      (e = [] ∨
       ∃ pre ext0, f = pre ++ '.' :: ext0 ∧ '.' ∉ ext0 ∧
         ∃ tok, tok ∈ splitFields (fun c => c = ' ') e ∧ 0 < tok.length ∧ tok.length ≤ 8 ∧
           tok.map cToLower = (ext0.take 8).map cToLower) := by
  unfold match_extension
  by_cases he : e = []
  · rw [if_pos he]
    simp [he]
  · rw [if_neg he]
    cases hdot : afterLastDot f with
    | none =>
      constructor
      · intro h; cases h
      · rintro (h | ⟨pre, ext0, hf, hnd, _⟩)
        · exact absurd h he
        · have hsome : afterLastDot f = Option.some ext0 :=
            (afterLastDot_some_iff f ext0).mpr ⟨pre, hf, hnd⟩
          rw [hdot] at hsome; cases hsome
    | some ext1 =>
      rw [List.any_eq_true]
      constructor
      · rintro ⟨tok, htok, hp⟩
        simp only [Bool.and_eq_true, decide_eq_true_eq] at hp
        rcases (afterLastDot_some_iff f ext1).mp hdot with ⟨pre, hf, hnd⟩
        exact Or.inr ⟨pre, ext1, hf, hnd, tok, htok, hp.1.1, hp.1.2, hp.2⟩
      · rintro (h | ⟨pre, ext0, hf, hnd, tok, htok, ht1, ht2, ht3⟩)
        · exact absurd h he
        · have hsome : afterLastDot f = Option.some ext0 :=
            (afterLastDot_some_iff f ext0).mpr ⟨pre, hf, hnd⟩
          rw [hdot] at hsome
          have hee : ext1 = ext0 := Option.some.inj hsome
          subst hee
          exact ⟨tok, htok, by simp [ht1, ht2, ht3]⟩

/-- Claim C4: sorting is not persistent across a rebuild: for every browse
state and sort mode, applying rom_sort and then rebuilding with unchanged
station filter and search text yields exactly the view produced by
rebuilding without the prior sort, and that view is a subsequence of the
entry store (store order). -/
theorem C4_sort_not_persistent (st : BrowseState) (mode : RomSortMode) :
    (rebuildState (rom_sort mode st)).filtered = (rebuildState st).filtered ∧
    (rebuildState (rom_sort mode st)).filtered.Sublist st.roms :=
  ⟨rfl, List.filter_sublist st.roms⟩

/-- Claim C5: removing an enabled station deletes from the store exactly the
entries of that station (a filter of the store, hence preserving the
relative order of the survivors and fixing the new count) and returns 0
(Ok); removing an out-of-range or not-enabled id returns -1 (NotFound) with
the catalog unchanged. -/
theorem C5_station_remove (cat : Catalog) (id : Nat)
    (hlen : cat.stations.length = ROM_MAX_STATIONS) :
    (stationEnabled cat id = true →
       (rom_station_remove cat id).1 = 0 ∧
       (rom_station_remove cat id).2.roms = cat.roms.filter (fun r => r.station_id ≠ id) ∧
       (rom_station_remove cat id).2.roms.Sublist cat.roms ∧
       (∀ e, e ∈ (rom_station_remove cat id).2.roms ↔ e ∈ cat.roms ∧ e.station_id ≠ id)) ∧
    (stationEnabled cat id = false → rom_station_remove cat id = (-1, cat)) := by
  by_cases hid : ROM_MAX_STATIONS ≤ id
  · have hget : cat.stations.get? id = Option.none := by
      rw [List.get?_eq_none]
      omega
    constructor
    · intro he
      rw [stationEnabled, hget] at he
      cases he
    · intro _
      rw [rom_station_remove, if_pos hid]
  · have hlt : id < cat.stations.length := by omega
    obtain ⟨st, hget⟩ : ∃ st, cat.stations.get? id = Option.some st := by
      cases hg : cat.stations.get? id with
      | some st => exact ⟨st, rfl⟩
      | none => rw [List.get?_eq_none] at hg; omega
    cases henb : st.enabled with
    | true =>
      have hrem : rom_station_remove cat id =
          (0, { cat with
                  roms := cat.roms.filter (fun r => r.station_id ≠ id),
                  stations := cat.stations.set id { st with enabled := false },
                  station_count := cat.station_count - 1 }) := by
        simp only [rom_station_remove, if_neg hid, hget, if_pos henb]
      constructor
      · intro _
        rw [hrem]
        refine ⟨rfl, rfl, List.filter_sublist cat.roms, ?_⟩
        intro e
        rw [List.mem_filter]
        simp
      · intro hf
        simp only [stationEnabled, hget] at hf
        rw [henb] at hf
        cases hf
    | false =>
      constructor
      · intro he
        simp only [stationEnabled, hget] at he
        rw [henb] at he
        cases he
      · intro _
        have henb' : ¬ (st.enabled = true) := by rw [henb]; simp
        simp only [rom_station_remove, if_neg hid, hget, if_neg henb']

/-- Witness for C5 at a concrete catalog: two enabled stations and three
entries; removing station 0 keeps exactly the station-1 entry. -/
def cat5w : Catalog :=
  { stations := mkStation 0 true :: mkStation 1 true :: List.replicate 30 (mkStation 0 false),
    station_count := 2, roms := [mkEntry 0, mkEntry 1, mkEntry 0], scan_progress := 0 }

/-- Witness instantiating C5_station_remove at cat5w, id 0. -/
theorem C5_station_remove_witness :
    cat5w.stations.length = ROM_MAX_STATIONS ∧ stationEnabled cat5w 0 = true ∧
    ((rom_station_remove cat5w 0).1 = 0 ∧
     (rom_station_remove cat5w 0).2.roms = cat5w.roms.filter (fun r => r.station_id ≠ 0) ∧
     (rom_station_remove cat5w 0).2.roms.Sublist cat5w.roms ∧
     (∀ e, e ∈ (rom_station_remove cat5w 0).2.roms ↔ e ∈ cat5w.roms ∧ e.station_id ≠ 0)) :=
  ⟨rfl, rfl, (C5_station_remove cat5w 0 rfl).1 rfl⟩

/-- Claim C6 counterexample: clearing the free-text filter rebuilds the view
but does not reset the cursor — from first-visible 2 / selected 3, both
survive rom_filter_clear, contradicting the claim that every
filter-triggered rebuild resets them to 0. -/
def browse6 : BrowseState :=
  let ms := fun (nm : String) => { mkEntry 0 with name := nm.toList }
  { roms := [ms "Mario Bros", ms "Mario Kart", ms "Dr Mario", ms "Super Mario"],
    stationFilter := -1, searchFilter := "mario".toList,
    filtered := [ms "Mario Bros", ms "Mario Kart", ms "Dr Mario", ms "Super Mario"],
    iFirstEntry := 2, iSelectedEntry := 3, sortMode := RomSortMode.nameAsc }

/-- Counterexample for C6 at browse6. -/
theorem C6_counterexample :
    ¬ ((rom_filter_clear browse6).iFirstEntry = 0 ∧
       (rom_filter_clear browse6).iSelectedEntry = 0) := by decide

/-- Claim C6 as amended: setting new search text rebuilds and resets the
cursor to (first = 0, selected = 0); clearing the search text rebuilds but
leaves both cursor indices unchanged. -/
theorem C6_filter_cursor (st : BrowseState) (text : List Char) :
    (rom_filter_set st text).iFirstEntry = 0 ∧
    (rom_filter_set st text).iSelectedEntry = 0 ∧
    (rom_filter_clear st).iFirstEntry = st.iFirstEntry ∧
    (rom_filter_clear st).iSelectedEntry = st.iSelectedEntry :=
  ⟨rfl, rfl, rfl, rfl⟩

/-- Claim C7: for every entry whose station exists, when the
internet-reachability probe fails rom_preview_fetch_online sets the preview
status to no_internet and returns -1 having attempted zero downloads. -/
theorem C7_no_internet_no_downloads (env : FetchEnv) (cat : Catalog) (rom : RomEntry)
    (pre : PreviewData) (st : RomStation)
    (hst : rom_station_get cat rom.station_id = Option.some st)
    (hnet : env.internetUp = false) :
    rom_preview_fetch_online env cat rom pre =
      (-1, { pre with status := PreviewStatus.noInternet }, 0) := by
  simp only [rom_preview_fetch_online, hst]
  rw [if_pos hnet]

/-- Concrete NES station, catalog, entry and offline environment for the C7
witness. -/
def stNES : RomStation :=
  { id := 0, name := "Nintendo Entertainment System".toList, short_name := "NES".toList,
    rom_path := "NES".toList, core_path := "NES".toList, extensions := "nes".toList,
    enabled := true, rom_count := 1 }

/-- Catalog holding only the NES station, in slot 0. -/
def cat7 : Catalog :=
  { stations := stNES :: List.replicate 31 (mkStation 0 false), station_count := 1,
    roms := [], scan_progress := 0 }

/-- A scanned NES entry. -/
def rom7 : RomEntry :=
  { name := "Super Mario".toList, filename := "Super_Mario.nes".toList,
    path := "/media/fat/games/NES/Super_Mario.nes".toList, station_id := 0,
    size := 40976, date := 0, has_preview := false, preview_path := [] }

/-- An environment whose reachability probe fails. -/
def env7 : FetchEnv :=
  { gamesDir := "/media/fat/games".toList, internetUp := false,
    download := fun _ _ => false, fileExists := fun _ => false,
    loadImage := fun _ => Option.none }

/-- Witness instantiating C7_no_internet_no_downloads at the concrete
offline environment. -/
theorem C7_witness :
    rom_station_get cat7 rom7.station_id = Option.some stNES ∧ env7.internetUp = false ∧
    rom_preview_fetch_online env7 cat7 rom7 rom_preview_clear =
      (-1, { rom_preview_clear with status := PreviewStatus.noInternet }, 0) :=
  ⟨rfl, rfl, C7_no_internet_no_downloads env7 cat7 rom7 rom_preview_clear stNES rfl rfl⟩

/-- Claim C8 counterexample: with every registry slot disabled, no station
with id 0 exists (rom_station_get misses), yet rom_station_update 0 returns
0 (Ok) — update checks only the range of the id, not the enabled flag. -/
def cat8 : Catalog :=
  { stations := List.replicate 32 (mkStation 0 false), station_count := 0,
    roms := [], scan_progress := 0 }

/-- Counterexample for C8 at cat8. -/
theorem C8_counterexample :
    ¬ (((rom_station_update cat8 0 (mkStation 0 true)).1 = 0) ↔
        rom_station_get cat8 0 ≠ Option.none) := by decide

/-- Claim C8 as amended: rom_station_update returns 0 (Ok) exactly when the
id is in range (id < ROM_MAX_STATIONS), whether or not that slot is enabled;
out of range it returns -1 (NotFound) with the registry unchanged. -/
theorem C8_station_update (cat : Catalog) (station_id : Nat) (st : RomStation) :
    ((rom_station_update cat station_id st).1 = 0 ↔ station_id < ROM_MAX_STATIONS) ∧
    (ROM_MAX_STATIONS ≤ station_id → rom_station_update cat station_id st = (-1, cat)) := by
  unfold rom_station_update
  by_cases h : ROM_MAX_STATIONS ≤ station_id
  · rw [if_pos h]
    refine ⟨⟨fun h0 => ?_, fun hlt => ?_⟩, fun _ => rfl⟩
    · exact absurd (show (-1 : Int) = 0 from h0) (by decide)
    · omega
  · rw [if_neg h]
    exact ⟨⟨fun _ => by omega, fun _ => rfl⟩, fun hx => absurd hx h⟩

/-- Witness instantiating C8_station_update at the out-of-range id 32. -/
theorem C8_station_update_witness :
    ROM_MAX_STATIONS ≤ 32 ∧ rom_station_update cat8 32 (mkStation 0 true) = (-1, cat8) :=
  ⟨by decide, (C8_station_update cat8 32 (mkStation 0 true)).2 (by decide)⟩

/-- Claim C9: the async fetch is single-flight.  In every reachable state of
the controller at most one background thread is alive; while the caller is
blocked joining a superseded fetch the cancel flag it set is up; at the
moment a new background task is created the previous thread has been joined
(no live worker) and the cancel flag has been re-cleared; and from any state
holding exactly the freshly spawned worker with the cancel flag clear, every
completed worker-only execution performs exactly one
rom_preview_fetch_online run, i.e. exactly one terminal status transition
from that (second) call. -/
theorem C9_async_single_flight (s : AsyncState) (h : AsyncReachable s) :
    s.workers.length ≤ 1 ∧
    (s.mainPC = MainPC.joining → s.cancel = true) ∧
    (s.mainPC = MainPC.spawning → s.workers = [] ∧ s.cancel = false) ∧
    (∀ ls s', s.workers = [WorkerPC.checkCancel] → s.cancel = false →
       WorkerTrace s ls s' → s'.workers = [] → countFetchRuns ls = 1) := by
  obtain ⟨h1, h2, h3, h4, h5, h6⟩ := async_inv_reachable h
  refine ⟨h1, h4, fun hsp => ⟨h3 (Or.inr (Or.inr (Or.inr hsp))),
                              h5 (Or.inr (Or.inr hsp))⟩, ?_⟩
  intro ls s' hw hc htr hend
  exact worker_trace_from_checkCancel htr hw hc hend

/-- The state after one completed rom_preview_fetch_async call: one freshly
spawned background worker, in-progress set, cancel clear. -/
def sW : AsyncState :=
  { inProgress := true, cancel := false, status := PreviewStatus.loading,
    workers := [WorkerPC.checkCancel], mainPC := MainPC.idle }

/-- Witness instantiating C9_async_single_flight at the concrete reachable
state sW. -/
theorem C9_witness :
    AsyncReachable sW ∧
    (sW.workers.length ≤ 1 ∧
     (sW.mainPC = MainPC.joining → sW.cancel = true) ∧
     (sW.mainPC = MainPC.spawning → sW.workers = [] ∧ sW.cancel = false) ∧
     (∀ ls s', sW.workers = [WorkerPC.checkCancel] → sW.cancel = false →
        WorkerTrace sW ls s' → s'.workers = [] → countFetchRuns ls = 1)) := by
  have hreach : AsyncReachable sW := by
    unfold AsyncReachable
    refine Relation.ReflTransGen.head ⟨ALabel.callStart, AStep.callStart initAsync rfl⟩ ?_
    refine Relation.ReflTransGen.head ⟨ALabel.checkFalse, AStep.checkFalse _ rfl rfl⟩ ?_
    refine Relation.ReflTransGen.head ⟨ALabel.resetCancel, AStep.resetCancel _ rfl⟩ ?_
    refine Relation.ReflTransGen.head ⟨ALabel.setInProgress, AStep.setInProgress _ rfl⟩ ?_
    refine Relation.ReflTransGen.head ⟨ALabel.setLoading, AStep.setLoading _ rfl⟩ ?_
    refine Relation.ReflTransGen.head ⟨ALabel.spawnOk, AStep.spawnOk _ rfl⟩ ?_
    exact Relation.ReflTransGen.refl
  exact ⟨hreach, C9_async_single_flight sW hreach⟩

/-- Claim C10: before any fetchAsync has started (the initial state), and
likewise immediately after a fetchAsync whose pthread_create failed,
rom_preview_fetch_poll returns true — polling never reports an in-progress
fetch when no background task exists (and it is a pure flag read, so it
never blocks). -/
theorem C10_poll_no_task :
    rom_preview_fetch_poll initAsync = true ∧
    (∀ s s', AStep s ALabel.spawnFail s' → rom_preview_fetch_poll s' = true) := by
  refine ⟨rfl, ?_⟩
  intro s s' hstep
  cases hstep
  rfl

/-- The state just before a pthread_create that is about to fail. -/
def sSpawn : AsyncState :=
  { inProgress := true, cancel := false, status := PreviewStatus.loading,
    workers := [], mainPC := MainPC.spawning }

/-- Witness instantiating C10_poll_no_task at a concrete failed spawn. -/
theorem C10_witness :
    AStep sSpawn ALabel.spawnFail
      { sSpawn with inProgress := false, status := PreviewStatus.error,
                    mainPC := MainPC.idle } ∧
    rom_preview_fetch_poll
      { sSpawn with inProgress := false, status := PreviewStatus.error,
                    mainPC := MainPC.idle } = true := by
  have hstep : AStep sSpawn ALabel.spawnFail
      { sSpawn with inProgress := false, status := PreviewStatus.error,
                    mainPC := MainPC.idle } :=
    AStep.spawnFail sSpawn rfl
  exact ⟨hstep, C10_poll_no_task.2 sSpawn _ hstep⟩

end RomCatalog
